import Mathlib

/-!
Shallow embedding of the telemetry-ai-ops batch dispatch engine:
the single-record heuristic classifier and the batched classifier
(`app/services/ai_analyzer.py`), and the batch dispatcher with its
buffer, flush triggers, retry policy and concurrency gate
(`app/services/ai_batcher.py`).

Numeric telemetry readings are modelled as rationals so thresholds such
as `1e-9` are exact.  Python `None` (absent key or null value) is
modelled as `Option.none`.  Exceptions are modelled with `Except`.
-/

namespace TelemetryAIOps

/-- A telemetry record as seen by the analyzer: `record.get("osnr")`,
`record.get("ber")` and `record.get("device_id")` are the only reads the
classifier performs; a missing key and a `None` value both read as `none`. -/
structure Record where
  device_id : Option String := none
  osnr : Option ℚ := none
  ber : Option ℚ := none
deriving DecidableEq

/-- Sample record carrying only a device identifier (its metrics are
missing, so the heuristic sends it to deeper analysis). -/
def recA : Record := { device_id := some "a" }

/-- Second sample record with only a device identifier. -/
def recB : Record := { device_id := some "b" }

/-- Third sample record with only a device identifier. -/
def recC : Record := { device_id := some "c" }

/-- Status field of the heuristic result dict. -/
inductive Status where
  | healthy
  | needs_ai
deriving DecidableEq

/-- Result dict of `run_ai_analysis`: a status and a reason string. -/
structure HeurResult where
  status : Status
  reason : String
deriving DecidableEq

/-- Threshold `1e-9` for the bit-error-rate, exact as a rational. -/
def berThreshold : ℚ := 1 / 1000000000

/-- Embedding of `AIAnalyzer.run_ai_analysis`: if `osnr` and `ber` are both
present (not `None`) and `osnr >= 30 and ber <= 1e-9`, the record is
`healthy`; otherwise it `needs_ai`. -/
def run_ai_analysis (record : Record) : HeurResult :=
  match record.osnr, record.ber with
  | some osnr, some ber =>
      if 30 ≤ osnr ∧ ber ≤ berThreshold then ⟨.healthy, "heuristic_ok"⟩
      else ⟨.needs_ai, "heuristic_uncertain"⟩
  | _, _ => ⟨.needs_ai, "heuristic_uncertain"⟩

/-- Embedding of Python's `line.strip()`: drop whitespace from both ends. -/
def pyStrip (s : String) : String :=
  ⟨((s.data.dropWhile Char.isWhitespace).reverse.dropWhile Char.isWhitespace).reverse⟩

/-- Per-record result dict built by `_call_external_ai_for_batch`:
`{"device_id": ..., "ai_output": out}` in the structured branch,
`{"device_id": ..., "message": line.strip()}` in the line-fallback branch,
`{"status": "error", "device_id": ..., "message": ...}` in the API-failure
branch.  The structured payload `out` is opaque to the control flow and is
modelled as a string. -/
inductive AiResult where
  | aiOutput (device_id : Option String) (payload : String)
  | lineMessage (device_id : Option String) (message : String)
  | errorResult (device_id : Option String) (message : String)
deriving DecidableEq

/-- Behaviour of the raw chat-completions call plus JSON decoding, quotiented
to exactly the case split `_call_external_ai_for_batch` performs on it:
the call returns content that decodes to a JSON list (`structured`), or
content that does not (`unstructured`, carrying its lines as split
line-by-line), or the call raises an `Exception` (`exception`), or the task
is cancelled (`CancelledError`, which is not an `Exception` and is not
caught there). -/
inductive ApiOutcome where
  | structured (payloads : List String)
  | unstructured (lines : List String)
  | exception (reason : String)
  | cancelled
deriving DecidableEq

/-- Embedding of `AIAnalyzer._call_external_ai_for_batch`.  `Except.error ()`
models a `CancelledError` escaping; every `Exception` from the API call is
caught and mapped to one error dict per record, tagged with the reason. -/
def call_external_ai_for_batch (records : List Record) (api : ApiOutcome) :
    Except Unit (List AiResult) :=
  match api with
  | .structured payloads =>
      .ok ((records.zip payloads).map fun p => .aiOutput p.1.device_id p.2)
  | .unstructured lines =>
      .ok ((records.zip lines).map fun p => .lineMessage p.1.device_id (pyStrip p.2))
  | .exception reason =>
      .ok (records.map fun r => .errorResult r.device_id ("AI analysis failed: " ++ reason))
  | .cancelled => .error ()

/-- Entry of the `results` list of `run_ai_analysis_batch`: either a
heuristic dict or a dict merged back from the external call. -/
inductive BatchResult where
  | heuristic (res : HeurResult)
  | ai (res : AiResult)
deriving DecidableEq

/-- First pass of `run_ai_analysis_batch` starting at position `i`:
for each record, keep the heuristic result or append a `None` placeholder
while recording the record and its index in `ai_needed` / `ai_indices`.
Returns `(results, ai_needed, ai_indices)`. -/
def heuristicPassAux : ℕ → List Record → List (Option BatchResult) × List Record × List ℕ
  | _, [] => ([], [], [])
  | i, r :: rest =>
    let res := run_ai_analysis r
    let tail := heuristicPassAux (i + 1) rest
    if res.status = Status.needs_ai then
      (none :: tail.1, r :: tail.2.1, i :: tail.2.2)
    else
      (some (.heuristic res) :: tail.1, tail.2.1, tail.2.2)

/-- The heuristic pass over a whole batch (`enumerate` starts at 0). -/
def heuristicPass (batch : List Record) : List (Option BatchResult) × List Record × List ℕ :=
  heuristicPassAux 0 batch

/-- Embedding of the merge loop
`for idx, out in zip(ai_indices, ai_out): results[idx] = out`. -/
def mergeBack : List (Option BatchResult) → List (ℕ × AiResult) → List (Option BatchResult)
  | results, [] => results
  | results, (idx, out) :: rest => mergeBack (results.set idx (some (.ai out))) rest

/-- Embedding of `AIAnalyzer.run_ai_analysis_batch`.  The natural number in
the result counts invocations of `_call_external_ai_for_batch` (0 or 1).
`Except.error ()` models the re-raised `CancelledError`; no other exception
escapes. -/
def run_ai_analysis_batch (batch : List Record) (api : ApiOutcome) :
    Except Unit (List (Option BatchResult) × ℕ) :=
  let hp := heuristicPass batch
  if hp.2.1.isEmpty then .ok (hp.1, 0)
  else
    match call_external_ai_for_batch hp.2.1 api with
    | .error e => .error e
    | .ok ai_out => .ok (mergeBack hp.1 (hp.2.2.zip ai_out), 1)

/-! The batch dispatcher `AIBatcher` (`app/services/ai_batcher.py`).

Its mutable state — the buffer, the flush event, the running flag and the
record of batches handed to the dispatch pool — is modelled explicitly;
asyncio's single-threaded cooperative scheduling lets each operation be
modelled as an atomic state transformer (none of `enqueue`, the buffer
swap in `_flush`, `start` or `stop` awaits while touching the buffer). -/

/-- Mutable state of one `AIBatcher` instance.  `submitted` records, in
order, every batch handed to the dispatch pool by `_flush` (each such batch
is the argument of one `run_ai_analysis_batch` call). -/
structure BatcherState where
  buffer : List Record
  flushEvent : Bool
  running : Bool
  submitted : List (List Record)
deriving DecidableEq

/-- State after `__init__`: empty buffer, event clear, not running. -/
def initialBatcher : BatcherState :=
  { buffer := [], flushEvent := false, running := false, submitted := [] }

/-- Embedding of `AIBatcher.start` (idempotent; spawns the loop). -/
def start (s : BatcherState) : BatcherState :=
  if s.running then s else { s with running := true }

/-- Embedding of `AIBatcher.enqueue`: append the record, then set the flush
event iff the buffer length has reached `batch_size`. -/
def enqueue (batchSize : ℕ) (s : BatcherState) (r : Record) : BatcherState :=
  let buf := s.buffer ++ [r]
  { s with
    buffer := buf
    flushEvent := if batchSize ≤ buf.length then true else s.flushEvent }

/-- Embedding of `AIBatcher._flush`: on an empty buffer only clear the
event; otherwise move the whole buffer out, clear the event, and submit the
snapshot to the dispatch pool. -/
def flush (s : BatcherState) : BatcherState :=
  if s.buffer.isEmpty then { s with flushEvent := false }
  else { s with buffer := [], flushEvent := false, submitted := s.submitted ++ [s.buffer] }

/-- Why the flush loop's `asyncio.wait_for(self._flush_event.wait(), timeout)`
returned: the event was set (immediately) or the full `timeout_seconds`
elapsed. -/
inductive WakeReason where
  | signal
  | timedOut
deriving DecidableEq

/-- The flush loop's wait: it returns on the `signal` branch, without
waiting out `timeout_seconds`, exactly when the flush event is set. -/
def loopWake (s : BatcherState) : WakeReason :=
  if s.flushEvent then .signal else .timedOut

/-- First half of `AIBatcher.stop` on a running batcher: clear the running
flag and set the flush event so the parked loop wakes at once. -/
def stopWake (s : BatcherState) : BatcherState :=
  { s with running := false, flushEvent := true }

/-- Embedding of `AIBatcher.stop`: a no-op when already stopped; otherwise
clear `running` and set the flush event (`stopWake`), upon which the woken
loop runs its last `_flush` and exits (first `flush`), and `stop` then
awaits the loop and performs the awaited final drain `_flush` (second
`flush`) before returning. -/
def stop (s : BatcherState) : BatcherState :=
  if s.running then flush (flush (stopWake s)) else s

/-- One externally observable dispatcher event while running: an
`enqueue` call, or one flush-loop iteration (`tick`, reached through either
wake reason — both funnel into the same `_flush`). -/
inductive BatchOp where
  | enq (r : Record)
  | tick

/-- Apply one dispatcher event. -/
def stepOp (batchSize : ℕ) (s : BatcherState) : BatchOp → BatcherState
  | .enq r => enqueue batchSize s r
  | .tick => flush s

/-- Run a sequence of dispatcher events. -/
def runOps (batchSize : ℕ) : BatcherState → List BatchOp → BatcherState
  | s, [] => s
  | s, op :: rest => runOps batchSize (stepOp batchSize s op) rest

/-- The records accepted in an event sequence, in order. -/
def enqueuedOf : List BatchOp → List Record
  | [] => []
  | .enq r :: rest => r :: enqueuedOf rest
  | .tick :: rest => enqueuedOf rest

/-- Total number of items ever submitted to the dispatch pool. -/
def itemsSubmitted (s : BatcherState) : ℕ := (s.submitted.map List.length).sum

/-! Retry machinery: `AIBatcher._run_batch_with_retries` drives tenacity's
`AsyncRetrying(stop=stop_after_attempt(3), wait=wait_exponential(min=1, max=8),
retry=retry_if_exception_type(Exception), reraise=True)`. -/

/-- Result of one classification attempt: normal return, or an `Exception`. -/
inductive AttemptOutcome where
  | ok
  | err (msg : String)
deriving DecidableEq

/-- Tenacity's `wait_exponential.__call__`: with the attempt number `n` of
the attempt that just failed, the sleep before the next attempt is
`max(max(0, min), min(multiplier * exp_base ** (n - 1), max))` with
`exp_base = 2`. -/
def waitExponential (multiplier mn mx : ℚ) (attemptNumber : ℕ) : ℚ :=
  max (max 0 mn) (min (multiplier * 2 ^ (attemptNumber - 1)) mx)

/-- The retry loop from attempt number `n` with `fuel` attempts remaining
(`stop_after_attempt` allows 3 in total).  Returns the number of attempts
performed, the backoff waits slept between them, and the final outcome
(`reraise=True`: the last exception is re-raised after the attempts are
exhausted).  Any `Exception` is retryable. -/
def retryFrom (beh : ℕ → AttemptOutcome) : ℕ → ℕ → ℕ × List ℚ × AttemptOutcome
  | _, 0 => (0, [], .ok)
  | n, fuel + 1 =>
    match beh n with
    | .ok => (1, [], .ok)
    | .err m =>
      if fuel = 0 then (1, [], .err m)
      else
        let tail := retryFrom beh (n + 1) fuel
        (tail.1 + 1, waitExponential 1 1 8 n :: tail.2.1, tail.2.2)

/-- The `AsyncRetrying` configuration of `_run_batch_with_retries`:
first attempt is number 1, `stop_after_attempt(3)`. -/
def asyncRetrying (beh : ℕ → AttemptOutcome) : ℕ × List ℚ × AttemptOutcome :=
  retryFrom beh 1 3

/-- Observable outcome of `_run_batch_with_retries` for one batch. -/
structure BatchRunResult where
  attempts : ℕ
  waits : List ℚ
  succeeded : Bool
  errorRecorded : Bool
deriving DecidableEq

/-- Embedding of `AIBatcher._run_batch_with_retries`: run the retry loop;
a terminal failure is caught, the error counter `AI_ERRORS` is incremented
(`errorRecorded`), and nothing is re-enqueued or retried further. -/
def run_batch_with_retries (beh : ℕ → AttemptOutcome) : BatchRunResult :=
  let t := asyncRetrying beh
  match t.2.2 with
  | .ok => ⟨t.1, t.2.1, true, false⟩
  | .err _ => ⟨t.1, t.2.1, false, true⟩

/-- How one `run_ai_analysis_batch` call looks to the dispatcher's retry
loop: a normal return is a success; only the re-raised cancellation is an
exception. -/
def dispatchAttempt (batch : List Record) (api : ApiOutcome) : AttemptOutcome :=
  match run_ai_analysis_batch batch api with
  | .ok _ => .ok
  | .error _ => .err "cancelled"

/-! Dispatch pool: `_run_with_semaphore` classifies each submitted batch
under `asyncio.Semaphore(max_concurrency)`. -/

/-- Phase of one submitted batch's dispatch task: parked at
`async with self._semaphore` (`waiting`), holding a permit while the
classification call runs (`inflight`), or finished (`done`). -/
inductive Phase where
  | waiting
  | inflight
  | done
deriving DecidableEq

/-- Shared state of the dispatch pool: the semaphore's free-permit counter
and the phases of all tasks ever submitted. -/
structure PoolState where
  permits : ℕ
  tasks : List Phase
deriving DecidableEq

/-- Pool state at construction: all permits free, no tasks. -/
def initPool (maxConc : ℕ) : PoolState := ⟨maxConc, []⟩

/-- Number of classification calls currently in flight. -/
def inflightCount (s : PoolState) : ℕ := s.tasks.count Phase.inflight

/-- Interleaving semantics of the pool: a flush may submit a new task; a
waiting task may enter the classification call only by taking a free
permit; an in-flight task may finish, returning its permit.  There is no
transition that discards or rejects a task. -/
inductive PoolStep : PoolState → PoolState → Prop where
  | submit (s : PoolState) : PoolStep s ⟨s.permits, s.tasks ++ [Phase.waiting]⟩
  | acquire (s : PoolState) (i : ℕ) (hi : s.tasks.get? i = some Phase.waiting)
      (hp : 0 < s.permits) : PoolStep s ⟨s.permits - 1, s.tasks.set i Phase.inflight⟩
  | release (s : PoolState) (i : ℕ) (hi : s.tasks.get? i = some Phase.inflight) :
      PoolStep s ⟨s.permits + 1, s.tasks.set i Phase.done⟩

/-- States the pool can reach from construction with ceiling `maxConc`. -/
def PoolReachable (maxConc : ℕ) : PoolState → Prop :=
  Relation.ReflTransGen PoolStep (initPool maxConc)

/-- C3: the single-item classifier returns `healthy` exactly when both
metrics are present with `osnr ≥ 30` and `ber ≤ 1e-9`; in every other
case — in particular when either metric is missing or null — it returns
`needs_ai`; and the three concrete examples from the spec evaluate as
stated. -/
theorem classifyOne_heuristic_spec :
    (∀ record : Record, (run_ai_analysis record).status = Status.healthy ↔
      ∃ o b, record.osnr = some o ∧ record.ber = some b ∧ 30 ≤ o ∧ b ≤ berThreshold)
    ∧ (∀ record : Record, (run_ai_analysis record).status ≠ Status.healthy →
        (run_ai_analysis record).status = Status.needs_ai)
    ∧ (∀ record : Record, record.osnr = none ∨ record.ber = none →
        (run_ai_analysis record).status = Status.needs_ai)
    ∧ (run_ai_analysis { osnr := some 32, ber := some berThreshold }).status = Status.healthy
    ∧ (run_ai_analysis { osnr := some 10, ber := some (1 / 10000) }).status = Status.needs_ai
    ∧ (run_ai_analysis {}).status = Status.needs_ai := by
  refine ⟨?_, ?_, ?_, ?_, ?_, rfl⟩
  · intro record
    constructor
    · intro h
      unfold run_ai_analysis at h
      rcases hosnr : record.osnr with _ | o <;> rcases hber : record.ber with _ | b <;>
        simp [hosnr, hber] at h
      split at h
      · rename_i hc
        exact ⟨o, b, rfl, rfl, hc.1, hc.2⟩
      · simp at h
    · rintro ⟨o, b, ho, hb, h30, hthr⟩
      unfold run_ai_analysis
      rw [ho, hb]
      simp [h30, hthr]
  · intro record h
    cases hs : (run_ai_analysis record).status
    · exact absurd hs h
    · rfl
  · intro record h
    unfold run_ai_analysis
    rcases h with h | h <;> rw [h] <;> rcases record.ber with _ | b <;>
      rcases record.osnr with _ | o <;> rfl
  · unfold run_ai_analysis
    norm_num
  · unfold run_ai_analysis berThreshold
    norm_num

/-- Witness for `classifyOne_heuristic_spec` at concrete records. -/
theorem classifyOne_heuristic_spec_witness :
    (run_ai_analysis { osnr := some 31, ber := some berThreshold }).status = Status.healthy ∧
    (run_ai_analysis { osnr := none }).status = Status.needs_ai :=
  ⟨(classifyOne_heuristic_spec.1 _).mpr ⟨31, berThreshold, rfl, rfl, by norm_num, le_refl _⟩,
   classifyOne_heuristic_spec.2.2.1 _ (Or.inl rfl)⟩

/-- Helper: the first pass keeps one results entry per input record. -/
theorem heuristicPassAux_length (i : ℕ) (l : List Record) :
    (heuristicPassAux i l).1.length = l.length := by
  induction l generalizing i with
  | nil => rfl
  | cons r rest ih =>
    by_cases hc : (run_ai_analysis r).status = Status.needs_ai <;>
      simp [heuristicPassAux, hc, ih]

/-- Helper: when the heuristic resolves every record, the first pass keeps
every heuristic result and leaves the residual list and index list empty. -/
theorem heuristicPassAux_all_resolved (i : ℕ) (l : List Record)
    (h : ∀ r ∈ l, (run_ai_analysis r).status ≠ Status.needs_ai) :
    heuristicPassAux i l =
      (l.map fun r => some (BatchResult.heuristic (run_ai_analysis r)), [], []) := by
  induction l generalizing i with
  | nil => rfl
  | cons r rest ih =>
    have hr := h r (List.mem_cons_self r rest)
    have hrest : ∀ x ∈ rest, (run_ai_analysis x).status ≠ Status.needs_ai :=
      fun x hx => h x (List.mem_cons_of_mem r hx)
    unfold heuristicPassAux
    rw [ih (i + 1) hrest]
    simp [hr]

/-- C4: when the heuristic resolves every item of the batch, the residual
`ai_needed` list is empty and `run_ai_analysis_batch` returns the heuristic
results directly, performing zero external calls — the result does not even
depend on the external service's behaviour. -/
theorem classifyBatch_short_circuit (batch : List Record)
    (h : ∀ r ∈ batch, (run_ai_analysis r).status ≠ Status.needs_ai) :
    (heuristicPass batch).2.1 = [] ∧
    ∀ api, run_ai_analysis_batch batch api =
      Except.ok (batch.map fun r => some (BatchResult.heuristic (run_ai_analysis r)), 0) := by
  have hp := heuristicPassAux_all_resolved 0 batch h
  refine ⟨by simp [heuristicPass, hp], fun api => ?_⟩
  simp [run_ai_analysis_batch, heuristicPass, hp]

/-- Witness for `classifyBatch_short_circuit`: an all-healthy batch is
answered heuristically even when the external service is unavailable. -/
theorem classifyBatch_short_circuit_witness :
    run_ai_analysis_batch [{ osnr := some 35, ber := some berThreshold }] ApiOutcome.cancelled =
      Except.ok ([some (BatchResult.heuristic
        (run_ai_analysis { osnr := some 35, ber := some berThreshold }))], 0) :=
  (classifyBatch_short_circuit _ (by
    intro r hr
    simp only [List.mem_singleton] at hr
    subst hr
    unfold run_ai_analysis berThreshold
    norm_num
    decide)).2 ApiOutcome.cancelled

/-- C6: when the external bulk call itself raises, the caught failure is
mapped to exactly one uniform error outcome per residual record, tagged
with the failure reason, in the records' order. -/
theorem externalFailure_uniform_errors (records : List Record) (reason : String) :
    (∃ out, call_external_ai_for_batch records (ApiOutcome.exception reason) = Except.ok out) ∧
    ∀ out, call_external_ai_for_batch records (ApiOutcome.exception reason) = Except.ok out →
      out.length = records.length ∧
      (∀ o ∈ out, ∃ d, o = AiResult.errorResult d ("AI analysis failed: " ++ reason)) ∧
      ∀ i r, records.get? i = some r →
        out.get? i = some (AiResult.errorResult r.device_id ("AI analysis failed: " ++ reason)) := by
  refine ⟨⟨_, rfl⟩, fun out hout => ?_⟩
  obtain rfl := Except.ok.inj hout
  refine ⟨by simp, fun o ho => ?_, fun i r hr => ?_⟩
  · rcases List.mem_map.mp ho with ⟨x, _, rfl⟩
    exact ⟨x.device_id, rfl⟩
  · rw [List.get?_eq_getElem?] at hr ⊢
    simp [List.getElem?_map, hr]

/-- Witness for `externalFailure_uniform_errors` at a one-record batch. -/
theorem externalFailure_uniform_errors_witness :
    [AiResult.errorResult (some "a") ("AI analysis failed: " ++ "boom")].length =
      [({ device_id := some "a" } : Record)].length :=
  ((externalFailure_uniform_errors [{ device_id := some "a" }] "boom").2 _ rfl).1

/-- Helper: only the index list of the first pass depends on the starting
position, and it does so by a uniform shift. -/
theorem heuristicPassAux_shift (i : ℕ) (l : List Record) :
    heuristicPassAux i l =
      ((heuristicPassAux 0 l).1, (heuristicPassAux 0 l).2.1,
        (heuristicPassAux 0 l).2.2.map (· + i)) := by
  induction l generalizing i with
  | nil => rfl
  | cons r rest ih =>
    have hmap : ∀ idx : List ℕ, (idx.map (· + 1)).map (· + i) = idx.map (· + (i + 1)) := by
      intro idx
      rw [List.map_map]
      apply List.map_congr_left
      intro x _
      simp [Function.comp]
      omega
    by_cases hc : (run_ai_analysis r).status = Status.needs_ai <;>
      simp [heuristicPassAux, hc, ih (i + 1), ih 1, hmap]

/-- Helper: merging pairs whose indices are all shifted by one leaves the
head entry untouched and merges the unshifted pairs into the tail. -/
theorem mergeBack_cons_shift (x : Option BatchResult) (res : List (Option BatchResult))
    (pairs : List (ℕ × AiResult)) :
    mergeBack (x :: res) (pairs.map fun p => (p.1 + 1, p.2)) = x :: mergeBack res pairs := by
  induction pairs generalizing x res with
  | nil => rfl
  | cons p rest ih => simp [mergeBack, List.set, ih]

/-- Helper: the merge loop `results[idx] = out` never changes the length of
the results list. -/
theorem mergeBack_length (res : List (Option BatchResult)) (pairs : List (ℕ × AiResult)) :
    (mergeBack res pairs).length = res.length := by
  induction pairs generalizing res with
  | nil => rfl
  | cons p rest ih => simp [mergeBack, ih]

/-- Helper: when exactly as many external outputs as residual records are
merged back, every `None` placeholder of the first pass is overwritten, so
the merged results list contains a result for every item of the batch. -/
theorem mergeBack_fills_all (l : List Record) (outs : List AiResult)
    (h : outs.length = (heuristicPass l).2.1.length) :
    ∀ x ∈ mergeBack (heuristicPass l).1 ((heuristicPass l).2.2.zip outs), x ≠ none := by
  induction l generalizing outs with
  | nil =>
    intro x hx
    exact absurd hx (List.not_mem_nil x)
  | cons r rest ih =>
    have hshift := heuristicPassAux_shift 1 rest
    have hzipmap : ∀ (idx : List ℕ) (os : List AiResult),
        (idx.map (· + 1)).zip os = (idx.zip os).map fun p => (p.1 + 1, p.2) := by
      intro idx os
      rw [List.zip_map_left]
      apply List.map_congr_left
      intro p _
      cases p
      rfl
    by_cases hc : (run_ai_analysis r).status = Status.needs_ai
    · have hexp : heuristicPass (r :: rest) =
          (none :: (heuristicPass rest).1, r :: (heuristicPass rest).2.1,
            0 :: (heuristicPass rest).2.2.map (· + 1)) := by
        simp [heuristicPass, heuristicPassAux, hc, hshift]
      rw [hexp] at h ⊢
      cases outs with
      | nil => simp at h
      | cons o outs' =>
        simp only [List.length_cons, Nat.succ.injEq] at h
        intro x hx
        have hstep : mergeBack (none :: (heuristicPass rest).1)
              ((0 :: (heuristicPass rest).2.2.map (· + 1)).zip (o :: outs')) =
            some (BatchResult.ai o) ::
              mergeBack (heuristicPass rest).1 ((heuristicPass rest).2.2.zip outs') := by
          rw [List.zip_cons_cons]
          show mergeBack (some (BatchResult.ai o) :: (heuristicPass rest).1)
              (((heuristicPass rest).2.2.map (· + 1)).zip outs') = _
          rw [hzipmap, mergeBack_cons_shift]
        rw [hstep] at hx
        rcases List.mem_cons.mp hx with rfl | hx
        · simp
        · exact ih outs' h x hx
    · have hexp : heuristicPass (r :: rest) =
          (some (BatchResult.heuristic (run_ai_analysis r)) :: (heuristicPass rest).1,
            (heuristicPass rest).2.1, (heuristicPass rest).2.2.map (· + 1)) := by
        simp [heuristicPass, heuristicPassAux, hc, hshift]
      rw [hexp] at h ⊢
      intro x hx
      rw [hzipmap, mergeBack_cons_shift] at hx
      rcases List.mem_cons.mp hx with rfl | hx
      · simp
      · exact ih outs h x hx

/-- C5 counterexample: two unresolved items with an unparseable response of
a single line.  The line fallback pairs lines to items positionally with
`zip`, which truncates at the shorter side, so the second item's `None`
placeholder survives into the returned results: `classifyBatch` does not
return a (non-null) result for every residual item. -/
theorem parse_fallback_loses_items :
    run_ai_analysis_batch [{ device_id := some "a" }, { device_id := some "b" }]
        (ApiOutcome.unstructured ["hello"]) =
      Except.ok ([some (BatchResult.ai (AiResult.lineMessage (some "a") "hello")), none], 1) ∧
    ∃ res, run_ai_analysis_batch [{ device_id := some "a" }, { device_id := some "b" }]
        (ApiOutcome.unstructured ["hello"]) = Except.ok (res, 1) ∧ res.get? 1 = some none := by
  exact ⟨rfl, _, rfl, rfl⟩

/-- C5 amended: on a parse failure the external call degrades to splitting
the text line-by-line and pairing lines to residual items positionally
(never an error); every item paired with a line receives a result, so
whenever the text has at least as many lines as there are residual items,
`classifyBatch` returns a non-null result for every item of the batch
(with fewer lines, unpaired trailing residual items keep their `None`
placeholder, as the counterexample shows). -/
theorem parse_fallback_amended (batch : List Record) (lines : List String)
    (h : (heuristicPass batch).2.1.length ≤ lines.length) :
    (∃ res k, run_ai_analysis_batch batch (ApiOutcome.unstructured lines) = Except.ok (res, k) ∧
      res.length = batch.length ∧ (∀ x ∈ res, x ≠ none) ∧ k ≤ 1) ∧
    ∀ (records : List Record) (out : List AiResult),
      call_external_ai_for_batch records (ApiOutcome.unstructured lines) = Except.ok out →
      ∀ i r li, records.get? i = some r → lines.get? i = some li →
        out.get? i = some (AiResult.lineMessage r.device_id (pyStrip li)) := by
  constructor
  · by_cases hres : (heuristicPass batch).2.1.isEmpty
    · refine ⟨(heuristicPass batch).1, 0, ?_, heuristicPassAux_length 0 batch, ?_, by omega⟩
      · simp [run_ai_analysis_batch, hres]
      · have hnil : (heuristicPass batch).2.1 = [] := List.isEmpty_iff.mp hres
        have hall := mergeBack_fills_all batch [] (by simp [hnil])
        simpa [mergeBack, List.zip_nil_right] using hall
    · have houts : call_external_ai_for_batch (heuristicPass batch).2.1
          (ApiOutcome.unstructured lines) =
          Except.ok (((heuristicPass batch).2.1.zip lines).map
            fun p => AiResult.lineMessage p.1.device_id (pyStrip p.2)) := rfl
      have hlen : (((heuristicPass batch).2.1.zip lines).map
            (fun p => AiResult.lineMessage p.1.device_id (pyStrip p.2))).length =
          (heuristicPass batch).2.1.length := by
        simp [List.length_zip]
        omega
      refine ⟨mergeBack (heuristicPass batch).1 ((heuristicPass batch).2.2.zip
          (((heuristicPass batch).2.1.zip lines).map
            fun p => AiResult.lineMessage p.1.device_id (pyStrip p.2))), 1,
        ?_, ?_, mergeBack_fills_all batch _ hlen, le_refl 1⟩
      · simp only [run_ai_analysis_batch, hres, Bool.false_eq_true, if_false]
        rw [houts]
      · rw [mergeBack_length]
        exact heuristicPassAux_length 0 batch
  · intro records out hout i r li hr hli
    obtain rfl := Except.ok.inj hout
    rw [List.get?_eq_getElem?] at hr hli ⊢
    simp only [List.getElem?_map]
    have hz : (records.zip lines)[i]? = some (r, li) := by
      rw [List.getElem?_zip_eq_some]
      exact ⟨hr, hli⟩
    rw [hz]
    rfl

/-- Witness for `parse_fallback_amended`: one residual item, two lines. -/
theorem parse_fallback_amended_witness :
    ∃ res k, run_ai_analysis_batch [{ device_id := some "a" }]
        (ApiOutcome.unstructured ["x", "y"]) = Except.ok (res, k) ∧
      res.length = 1 ∧ (∀ x ∈ res, x ≠ none) ∧ k ≤ 1 :=
  (parse_fallback_amended [{ device_id := some "a" }] ["x", "y"] (by decide)).1

/-- Helper: a flush never changes the running flag. -/
theorem flush_running (s : BatcherState) : (flush s).running = s.running := by
  by_cases hb : s.buffer.isEmpty <;> simp [flush, hb]

/-- Helper: what `stop` does to a running batcher — the loop is woken by
the set event, the state is stopped, the buffer is fully drained into the
submitted batches, in order. -/
theorem stopDrain_aux (s : BatcherState) (h : s.running = true) :
    loopWake (stopWake s) = WakeReason.signal ∧
    (stopWake s).running = false ∧
    (stop s).running = false ∧
    (stop s).buffer = [] ∧
    (stop s).submitted.flatten = s.submitted.flatten ++ s.buffer ∧
    (stop s).flushEvent = false := by
  have hs : stop s = flush (flush (stopWake s)) := by simp [stop, h]
  rcases hb : s.buffer with _ | ⟨x, xs⟩
  · refine ⟨by simp [loopWake, stopWake], rfl, ?_, ?_, ?_, ?_⟩ <;>
      simp [hs, flush, stopWake, hb]
  · refine ⟨by simp [loopWake, stopWake], rfl, ?_, ?_, ?_, ?_⟩ <;>
      simp [hs, flush, stopWake, hb]

/-- C8: `enqueue` appends the record to the buffer; if the buffer length
has reached `batch_size` right after the insertion, the flush event is set
and the parked flush loop wakes on the signal branch instead of waiting
out `timeout_seconds`; below `batch_size` the event is left exactly as it
was. -/
theorem enqueue_size_trigger (batchSize : ℕ) (s : BatcherState) (r : Record) :
    (enqueue batchSize s r).buffer = s.buffer ++ [r] ∧
    (batchSize ≤ s.buffer.length + 1 →
      (enqueue batchSize s r).flushEvent = true ∧
      loopWake (enqueue batchSize s r) = WakeReason.signal) ∧
    (s.buffer.length + 1 < batchSize →
      (enqueue batchSize s r).flushEvent = s.flushEvent) := by
  refine ⟨rfl, fun h => ?_, fun h => ?_⟩
  · have he : (enqueue batchSize s r).flushEvent = true := by
      simp [enqueue]
      exact Or.inl h
    exact ⟨he, by simp [loopWake, he]⟩
  · simp [enqueue]
    intro hc
    exact absurd hc (by omega)

/-- Witness for `enqueue_size_trigger`: `batch_size = 3`, third insertion. -/
theorem enqueue_size_trigger_witness :
    (enqueue 3 { buffer := [recA, recB], flushEvent := false, running := true, submitted := [] }
      recC).flushEvent = true ∧
    loopWake (enqueue 3
      { buffer := [recA, recB], flushEvent := false, running := true, submitted := [] }
      recC) = WakeReason.signal :=
  (enqueue_size_trigger 3 _ _).2.1 (by decide)

/-- C2: on a running batcher, `stop` clears the running flag and sets the
flush event, so the parked loop wakes on the signal branch at once (not
after a full `timeout_seconds`); after the woken loop's last flush and the
awaited final drain flush, `stop` returns with the state stopped, the
buffer empty, and every previously buffered item appended (in order) to
the submitted batches — no accepted item is lost or orphaned. -/
theorem stop_drain_on_shutdown (s : BatcherState) (h : s.running = true) :
    loopWake (stopWake s) = WakeReason.signal ∧
    (stopWake s).running = false ∧
    (stop s).running = false ∧
    (stop s).buffer = [] ∧
    (stop s).submitted.flatten = s.submitted.flatten ++ s.buffer ∧
    (stop s).flushEvent = false :=
  stopDrain_aux s h

/-- Witness for `stop_drain_on_shutdown` at a concrete running state. -/
theorem stop_drain_on_shutdown_witness :
    (stop { buffer := [recA], flushEvent := false, running := true, submitted := [[recB]] }
      ).submitted.flatten = ([[recB]] : List (List Record)).flatten ++ [recA] :=
  (stop_drain_on_shutdown _ rfl).2.2.2.2.1

/-- Helper: running a sequence of enqueue/flush events never changes the
running flag. -/
theorem runOps_running (batchSize : ℕ) (ops : List BatchOp) :
    ∀ s : BatcherState, (runOps batchSize s ops).running = s.running := by
  induction ops with
  | nil => intro s; rfl
  | cons op rest ih =>
    intro s
    show (runOps batchSize (stepOp batchSize s op) rest).running = s.running
    rw [ih]
    cases op with
    | enq r => rfl
    | tick => exact flush_running s

/-- Helper conservation invariant: across any sequence of enqueue/flush
events, the submitted items followed by the still-buffered items are
exactly the starting contents followed by the newly accepted records, in
order. -/
theorem runOps_conservation (batchSize : ℕ) (ops : List BatchOp) :
    ∀ s : BatcherState,
      (runOps batchSize s ops).submitted.flatten ++ (runOps batchSize s ops).buffer =
        s.submitted.flatten ++ s.buffer ++ enqueuedOf ops := by
  induction ops with
  | nil => intro s; simp [runOps, enqueuedOf]
  | cons op rest ih =>
    intro s
    show (runOps batchSize (stepOp batchSize s op) rest).submitted.flatten ++
        (runOps batchSize (stepOp batchSize s op) rest).buffer = _
    rw [ih]
    cases op with
    | enq r => simp [stepOp, enqueue, enqueuedOf]
    | tick =>
      rcases hb : s.buffer with _ | ⟨x, xs⟩ <;>
        simp [stepOp, flush, hb, enqueuedOf]

/-- C1: conservation through the dispatcher.  For every sequence of
`enqueue` calls and flush-loop iterations on a started batcher followed by
`stop()`, the concatenation of all batches ever submitted to the dispatch
pool (each the argument of one `run_ai_analysis_batch` call) is exactly
the list of accepted records, in order — no item is lost, duplicated, or
left in the buffer; in particular the item count submitted equals the
number of accepts.  Submission happens before and independently of the
retry/terminal-failure handling of a batch, which never re-enqueues. -/
theorem dispatcher_conservation (batchSize : ℕ) (ops : List BatchOp) :
    (stop (runOps batchSize (start initialBatcher) ops)).submitted.flatten = enqueuedOf ops ∧
    (stop (runOps batchSize (start initialBatcher) ops)).buffer = [] ∧
    itemsSubmitted (stop (runOps batchSize (start initialBatcher) ops)) =
      (enqueuedOf ops).length := by
  have hrun : (runOps batchSize (start initialBatcher) ops).running = true :=
    runOps_running batchSize ops (start initialBatcher)
  have hdrain := stopDrain_aux _ hrun
  have hcons := runOps_conservation batchSize ops (start initialBatcher)
  have hinit : (start initialBatcher).submitted.flatten ++ (start initialBatcher).buffer = [] := rfl
  have hjoin : (stop (runOps batchSize (start initialBatcher) ops)).submitted.flatten =
      enqueuedOf ops := by
    rw [hdrain.2.2.2.2.1, hcons]
    simp [start, initialBatcher]
  refine ⟨hjoin, hdrain.2.2.2.1, ?_⟩
  rw [itemsSubmitted, ← List.length_flatten, hjoin]

/-- Helper: one-step unfolding of the retry loop. -/
theorem retryFrom_succ (beh : ℕ → AttemptOutcome) (n fuel : ℕ) :
    retryFrom beh n (fuel + 1) =
      match beh n with
      | .ok => (1, [], .ok)
      | .err m =>
        if fuel = 0 then (1, [], .err m)
        else
          let tail := retryFrom beh (n + 1) fuel
          (tail.1 + 1, waitExponential 1 1 8 n :: tail.2.1, tail.2.2) := rfl

/-- Helper: the backoff before attempt 2 is one second. -/
theorem waitExponential_one : waitExponential 1 1 8 1 = 1 := by
  norm_num [waitExponential, max_def, min_def]

/-- Helper: the backoff before attempt 3 is two seconds. -/
theorem waitExponential_two : waitExponential 1 1 8 2 = 2 := by
  norm_num [waitExponential, max_def, min_def]

/-- Helper: exhaustive evaluation of `_run_batch_with_retries` by the
outcomes of the first three attempts. -/
theorem run_batch_cases (beh : ℕ → AttemptOutcome) :
    (beh 1 = AttemptOutcome.ok ∧ run_batch_with_retries beh = ⟨1, [], true, false⟩) ∨
    (∃ m, beh 1 = AttemptOutcome.err m ∧ beh 2 = AttemptOutcome.ok ∧
      run_batch_with_retries beh = ⟨2, [1], true, false⟩) ∨
    (∃ m₁ m₂, beh 1 = AttemptOutcome.err m₁ ∧ beh 2 = AttemptOutcome.err m₂ ∧
      beh 3 = AttemptOutcome.ok ∧ run_batch_with_retries beh = ⟨3, [1, 2], true, false⟩) ∨
    (∃ m₁ m₂ m₃, beh 1 = AttemptOutcome.err m₁ ∧ beh 2 = AttemptOutcome.err m₂ ∧
      beh 3 = AttemptOutcome.err m₃ ∧
      run_batch_with_retries beh = ⟨3, [1, 2], false, true⟩) := by
  rcases h1 : beh 1 with _ | m1
  · left
    have ha : asyncRetrying beh = (1, [], .ok) := by
      show retryFrom beh 1 (2 + 1) = _
      rw [retryFrom_succ, h1]
    exact ⟨rfl, by simp [run_batch_with_retries, ha]⟩
  · rcases h2 : beh 2 with _ | m2
    · right; left
      have ht : retryFrom beh 2 2 = (1, [], AttemptOutcome.ok) := by
        show retryFrom beh 2 (1 + 1) = _
        rw [retryFrom_succ, h2]
      have ha : asyncRetrying beh = (2, [waitExponential 1 1 8 1], .ok) := by
        show retryFrom beh 1 (2 + 1) = _
        rw [retryFrom_succ, h1]
        simp [ht]
      exact ⟨m1, rfl, rfl, by simp [run_batch_with_retries, ha, waitExponential_one]⟩
    · rcases h3 : beh 3 with _ | m3
      · right; right; left
        have ht3 : retryFrom beh 3 1 = (1, [], AttemptOutcome.ok) := by
          show retryFrom beh 3 (0 + 1) = _
          rw [retryFrom_succ, h3]
        have ht : retryFrom beh 2 2 = (2, [waitExponential 1 1 8 2], AttemptOutcome.ok) := by
          show retryFrom beh 2 (1 + 1) = _
          rw [retryFrom_succ, h2]
          simp [ht3]
        have ha : asyncRetrying beh =
            (3, [waitExponential 1 1 8 1, waitExponential 1 1 8 2], .ok) := by
          show retryFrom beh 1 (2 + 1) = _
          rw [retryFrom_succ, h1]
          simp [ht]
        exact ⟨m1, m2, rfl, rfl, rfl,
          by simp [run_batch_with_retries, ha, waitExponential_one, waitExponential_two]⟩
      · right; right; right
        have ht3 : retryFrom beh 3 1 = (1, [], AttemptOutcome.err m3) := by
          show retryFrom beh 3 (0 + 1) = _
          rw [retryFrom_succ, h3]
          rfl
        have ht : retryFrom beh 2 2 =
            (2, [waitExponential 1 1 8 2], AttemptOutcome.err m3) := by
          show retryFrom beh 2 (1 + 1) = _
          rw [retryFrom_succ, h2]
          simp [ht3]
        have ha : asyncRetrying beh =
            (3, [waitExponential 1 1 8 1, waitExponential 1 1 8 2], .err m3) := by
          show retryFrom beh 1 (2 + 1) = _
          rw [retryFrom_succ, h1]
          simp [ht]
        exact ⟨m1, m2, m3, rfl, rfl, rfl,
          by simp [run_batch_with_retries, ha, waitExponential_one, waitExponential_two]⟩

/-- C7: the retry policy per dispatched batch.  At most 3 attempts are ever
made; any exception outcome of an attempt is retried; the backoff waits
performed are a prefix of 1s, 2s, following tenacity's exponential formula
(doubling, floored at 1s, capped at 8s); a classifier failing twice then
succeeding yields exactly 3 attempts and a success with no error recorded;
a classifier that always fails yields exactly 3 attempts, after which the
failure is terminal: the error counter is incremented and the result
records no further retry (no re-enqueue exists in `run_batch_with_retries`).
-/
theorem retry_policy_spec :
    (∀ beh, (run_batch_with_retries beh).attempts ≤ 3) ∧
    (∀ beh m, beh 1 = AttemptOutcome.err m → 2 ≤ (run_batch_with_retries beh).attempts) ∧
    (∀ beh, (run_batch_with_retries beh).waits = [] ∨
      (run_batch_with_retries beh).waits = [1] ∨
      (run_batch_with_retries beh).waits = [1, 2]) ∧
    (waitExponential 1 1 8 1 = 1 ∧ waitExponential 1 1 8 2 = 2) ∧
    (∀ n, waitExponential 1 1 8 n ≤ 8) ∧
    (∀ n, 1 ≤ n → waitExponential 1 1 8 (n + 1) = min (2 * waitExponential 1 1 8 n) 8) ∧
    (∀ beh m₁ m₂, beh 1 = AttemptOutcome.err m₁ → beh 2 = AttemptOutcome.err m₂ →
      beh 3 = AttemptOutcome.ok →
      run_batch_with_retries beh = ⟨3, [1, 2], true, false⟩) ∧
    (∀ beh, (∀ n, beh n ≠ AttemptOutcome.ok) →
      run_batch_with_retries beh = ⟨3, [1, 2], false, true⟩) := by
  refine ⟨?_, ?_, ?_, ⟨waitExponential_one, waitExponential_two⟩, ?_, ?_, ?_, ?_⟩
  · intro beh
    rcases run_batch_cases beh with ⟨_, h⟩ | ⟨_, _, _, h⟩ | ⟨_, _, _, _, _, h⟩ |
      ⟨_, _, _, _, _, _, h⟩ <;> rw [h] <;> norm_num
  · intro beh m hm
    rcases run_batch_cases beh with ⟨h1, h⟩ | ⟨_, _, _, h⟩ | ⟨_, _, _, _, _, h⟩ |
      ⟨_, _, _, _, _, _, h⟩
    · rw [hm] at h1
      cases h1
    all_goals rw [h]
    all_goals norm_num
  · intro beh
    rcases run_batch_cases beh with ⟨_, h⟩ | ⟨_, _, _, h⟩ | ⟨_, _, _, _, _, h⟩ |
      ⟨_, _, _, _, _, _, h⟩ <;> rw [h] <;> simp
  · intro n
    rw [waitExponential]
    refine max_le (by norm_num) (min_le_right _ _)
  · intro n hn
    have h2n : (1 : ℚ) ≤ 2 ^ (n - 1) := one_le_pow₀ (by norm_num)
    have h2n' : (1 : ℚ) ≤ 2 ^ n := one_le_pow₀ (by norm_num)
    have hpow : (2 : ℚ) ^ n = 2 * 2 ^ (n - 1) := by
      conv_lhs => rw [show n = (n - 1) + 1 by omega]
      rw [pow_succ]
      ring
    have hmax01 : max (0 : ℚ) 1 = 1 := by norm_num
    have hL : waitExponential 1 1 8 (n + 1) = min ((2 : ℚ) ^ n) 8 := by
      rw [waitExponential]
      simp only [Nat.add_sub_cancel, one_mul, hmax01]
      exact max_eq_right (le_min h2n' (by norm_num))
    have hR : waitExponential 1 1 8 n = min ((2 : ℚ) ^ (n - 1)) 8 := by
      rw [waitExponential]
      simp only [one_mul, hmax01]
      exact max_eq_right (le_min h2n (by norm_num))
    rw [hL, hR]
    rcases le_total ((2 : ℚ) ^ (n - 1)) 8 with hle | hge
    · rw [min_eq_left hle, ← hpow]
    · rw [min_eq_right hge, hpow]
      rw [min_eq_right (by linarith), min_eq_right (by norm_num)]
  · intro beh m₁ m₂ h1 h2 h3
    rcases run_batch_cases beh with ⟨hc, h⟩ | ⟨m, hc1, hc2, h⟩ | ⟨a, b, _, _, _, h⟩ |
      ⟨a, b, c, _, _, hc3, h⟩
    · rw [h1] at hc
      cases hc
    · rw [h2] at hc2
      cases hc2
    · exact h
    · rw [h3] at hc3
      cases hc3
  · intro beh hfail
    rcases run_batch_cases beh with ⟨hc, h⟩ | ⟨m, _, hc2, h⟩ | ⟨a, b, _, _, hc3, h⟩ |
      ⟨a, b, c, _, _, _, h⟩
    · exact absurd hc (hfail 1)
    · exact absurd hc2 (hfail 2)
    · exact absurd hc3 (hfail 3)
    · exact h

/-- Witness for `retry_policy_spec`: a classifier failing twice then
succeeding makes exactly 3 calls, succeeds, and records no error. -/
theorem retry_policy_spec_witness :
    run_batch_with_retries
        (fun n => if n = 3 then AttemptOutcome.ok else AttemptOutcome.err "boom") =
      ⟨3, [1, 2], true, false⟩ :=
  retry_policy_spec.2.2.2.2.2.2.1 _ "boom" "boom" rfl rfl rfl

/-- Helper: overwriting position `i` (holding a value other than `c`) with
`c` raises the count of `c` by one. -/
theorem count_set_incr {α : Type} [DecidableEq α] (l : List α) (i : ℕ) (a c : α)
    (h : l.get? i = some a) (hac : a ≠ c) : (l.set i c).count c = l.count c + 1 := by
  induction l generalizing i with
  | nil => simp at h
  | cons x xs ih =>
    cases i with
    | zero =>
      obtain rfl : x = a := by simpa using h
      simp [List.set, List.count_cons, hac]
    | succ j =>
      have h' : xs.get? j = some a := by simpa using h
      by_cases hx : x = c <;> simp [List.set, List.count_cons, hx, ih j h']

/-- Helper: overwriting position `i` (holding `c`) with a value other than
`c` lowers the count of `c` by one. -/
theorem count_set_decr {α : Type} [DecidableEq α] (l : List α) (i : ℕ) (c b : α)
    (h : l.get? i = some c) (hbc : b ≠ c) : (l.set i b).count c + 1 = l.count c := by
  induction l generalizing i with
  | nil => simp at h
  | cons x xs ih =>
    cases i with
    | zero =>
      obtain rfl : x = c := by simpa using h
      simp [List.set, List.count_cons, hbc]
    | succ j =>
      have h' : xs.get? j = some c := by simpa using h
      have hj := ih j h'
      by_cases hx : x = c <;> simp [List.set, List.count_cons, hx] <;> omega

/-- Helper: every pool transition preserves the semaphore accounting
`free permits + in-flight calls = max_concurrency`. -/
theorem poolStep_invariant {maxConc : ℕ} {s t : PoolState} (hstep : PoolStep s t)
    (hinv : s.permits + inflightCount s = maxConc) :
    t.permits + inflightCount t = maxConc := by
  cases hstep with
  | submit =>
    simpa [inflightCount, List.count_append] using hinv
  | acquire i hi hp =>
    have hc := count_set_incr s.tasks i Phase.waiting Phase.inflight hi (by decide)
    simp only [inflightCount] at hinv ⊢
    rw [hc]
    omega
  | release i hi =>
    have hc := count_set_decr s.tasks i Phase.inflight Phase.done hi (by decide)
    simp only [inflightCount] at hinv ⊢
    omega

/-- Helper: the semaphore accounting holds in every reachable pool state. -/
theorem poolReachable_invariant (maxConc : ℕ) (s : PoolState)
    (h : PoolReachable maxConc s) : s.permits + inflightCount s = maxConc := by
  have h' : Relation.ReflTransGen PoolStep (initPool maxConc) s := h
  clear h
  induction h' with
  | refl => simp [initPool, inflightCount]
  | tail hr hstep ih => exact poolStep_invariant hstep ih

/-- C9: the semaphore enforces the concurrency ceiling — in every reachable
pool state at most `max_concurrency` classification calls are in flight
(with a ceiling of 1, batches run strictly one at a time); and every pool
transition keeps all submitted tasks (none is dropped or rejected): a
waiting task either stays waiting (delayed start) or becomes in-flight. -/
theorem concurrency_ceiling (maxConc : ℕ) (s : PoolState) (h : PoolReachable maxConc s) :
    inflightCount s ≤ maxConc ∧
    (maxConc = 1 → inflightCount s ≤ 1) ∧
    ∀ t, PoolStep s t →
      s.tasks.length ≤ t.tasks.length ∧
      ∀ i, s.tasks.get? i = some Phase.waiting →
        t.tasks.get? i = some Phase.waiting ∨ t.tasks.get? i = some Phase.inflight := by
  have hinv := poolReachable_invariant maxConc s h
  refine ⟨by omega, fun h1 => by omega, fun t hstep => ?_⟩
  cases hstep with
  | submit =>
    refine ⟨by simp, fun i hi => Or.inl ?_⟩
    have hlt : i < s.tasks.length := by
      rw [List.get?_eq_getElem?] at hi
      exact (List.getElem?_eq_some.mp hi).1
    rw [List.get?_eq_getElem?] at hi ⊢
    rw [List.getElem?_append_left hlt]
    exact hi
  | acquire j hj hp =>
    refine ⟨by simp, fun i hi => ?_⟩
    by_cases hij : i = j
    · subst hij
      have hlt : i < s.tasks.length := by
        rw [List.get?_eq_getElem?] at hi
        exact (List.getElem?_eq_some.mp hi).1
      exact Or.inr (List.get?_set_eq_of_lt _ hlt)
    · left
      rw [List.get?_set_ne _ _ (Ne.symm hij)]
      exact hi
  | release j hj =>
    refine ⟨by simp, fun i hi => Or.inl ?_⟩
    have hij : i ≠ j := by
      intro hij
      subst hij
      rw [hi] at hj
      cases hj
    rw [List.get?_set_ne _ _ (Ne.symm hij)]
    exact hi

/-- Witness for `concurrency_ceiling`: with ceiling 1, after submitting one
batch and admitting it through the semaphore, exactly one call is in
flight. -/
theorem concurrency_ceiling_witness :
    inflightCount ⟨0, [Phase.inflight]⟩ ≤ 1 :=
  (concurrency_ceiling 1 ⟨0, [Phase.inflight]⟩
    (Relation.ReflTransGen.tail
      (Relation.ReflTransGen.tail Relation.ReflTransGen.refl (PoolStep.submit _))
      (PoolStep.acquire _ 0 rfl (by decide)))).1

/-- C10: an external-service failure inside the bulk call never escapes
`run_ai_analysis_batch` as an exception: for every non-cancelled behaviour
of the external service — including an `Exception` from the API call — the
batch call returns normally, so the dispatcher's attempt succeeds and its
retry-with-backoff path is never triggered (one attempt, no backoff, no
error recorded); the only exception `run_ai_analysis_batch` re-raises is
cancellation. -/
theorem external_failure_never_raises (batch : List Record) (api : ApiOutcome)
    (h : api ≠ ApiOutcome.cancelled) :
    (∃ res, run_ai_analysis_batch batch api = Except.ok res) ∧
    dispatchAttempt batch api = AttemptOutcome.ok ∧
    run_batch_with_retries (fun _ => dispatchAttempt batch api) = ⟨1, [], true, false⟩ ∧
    ((heuristicPass batch).2.1 ≠ [] →
      run_ai_analysis_batch batch ApiOutcome.cancelled = Except.error ()) := by
  have hok : ∃ res, run_ai_analysis_batch batch api = Except.ok res := by
    rw [run_ai_analysis_batch]
    split
    · exact ⟨_, rfl⟩
    · cases api with
      | structured payloads => exact ⟨_, rfl⟩
      | unstructured lines => exact ⟨_, rfl⟩
      | exception reason => exact ⟨_, rfl⟩
      | cancelled => exact absurd rfl h
  obtain ⟨res, hres⟩ := hok
  have hda : dispatchAttempt batch api = AttemptOutcome.ok := by
    rw [dispatchAttempt, hres]
  refine ⟨⟨res, hres⟩, hda, ?_, fun hne => ?_⟩
  · rcases run_batch_cases (fun _ => dispatchAttempt batch api) with ⟨_, hr⟩ |
      ⟨m, hm, _, _⟩ | ⟨m, _, hm, _, _, _⟩ | ⟨m, _, _, hm, _, _, _⟩
    · exact hr
    all_goals {
      have hm' : dispatchAttempt batch api = AttemptOutcome.err m := hm
      rw [hda] at hm'
      cases hm'
    }
  · rw [run_ai_analysis_batch]
    rw [if_neg (by simpa [List.isEmpty_iff] using hne)]
    rfl

/-- Witness for `external_failure_never_raises`: a batch whose only record
needs deeper analysis, with the external service down. -/
theorem external_failure_never_raises_witness :
    run_batch_with_retries (fun _ => dispatchAttempt [recA] (ApiOutcome.exception "down")) =
      ⟨1, [], true, false⟩ :=
  (external_failure_never_raises [recA] (ApiOutcome.exception "down") (by simp)).2.2.1

end TelemetryAIOps
